import Mathlib

/-!
Verification development for the LLVM lowering backend of the `cu` compiler
(`src/llvm.rs`, `src/codegen.rs`, `src/ir0.rs`).

The development gives a shallow embedding of the lowering engine:
the IR data model, the type/layout builder (`TypeBuilder`), the
calling-convention synthesis (`func_type`), expression and statement
lowering (`StmtBuilder`), and the scalar cast matrix.  LLVM builder
calls are modelled by an explicit instruction-emission state monad;
LLVM constant folding and data-layout queries are modelled by pure
functions following the x86-64 default data layout.

Note on provenance: `src/llvm.rs` imports `crate::ir`, whose source file is
not part of the repository snapshot; the shapes of its types (`Type`,
`ExprKind`, `Stmt`, `FuncType`, ...) are reconstructed from the pattern
matches in `src/llvm.rs` and, where marked, modelled from the spec.
-/

namespace Cu

/-! ## IR data model (crate::ir) -/

abbrev TypeId := Nat

structure FuncType where
  params : List TypeId
  ret : TypeId
  var_args : Bool
deriving Repr, DecidableEq

structure Variant where
  args : List TypeId
deriving Repr, DecidableEq

structure EnumType where
  name : String
  variants : List Variant
deriving Repr, DecidableEq

structure StructType where
  name : String
  fields : List (String × TypeId)
deriving Repr, DecidableEq

/-- The IR `Type` enum, as matched by `src/llvm.rs` (the defining
module `crate::ir` is not in the snapshot; the constructor set follows
the spec data model, section 3). -/
inductive Ty where
  | bool
  | i8
  | i16
  | i32
  | i64
  | f32
  | f64
  | pointer (t : TypeId)
  | func (ft : FuncType)
  | unit
  | strct (s : StructType)
  | array (t : TypeId) (n : Nat)
  | tuple (ts : List TypeId)
  | enm (e : EnumType)
deriving Repr, DecidableEq

inductive TypeKind where
  | scalar
  | aggregate
  | unit
deriving Repr, DecidableEq

inductive ScalarKind where
  | int
  | float
  | pointer
deriving Repr, DecidableEq

/-- Modelled from the spec: TypeKind is derived, not stored: Scalar is
numeric, pointer or function-value; Aggregate is struct, tuple, array or
enum; Unit is unit (spec section 3; `Type::kind` lives in the missing
`crate::ir`). -/
def Ty.kind : Ty → TypeKind
  | .bool | .i8 | .i16 | .i32 | .i64 | .f32 | .f64 => .scalar
  | .pointer _ | .func _ => .scalar
  | .strct _ | .array _ _ | .tuple _ | .enm _ => .aggregate
  | .unit => .unit

/-- Modelled from the spec: ScalarKind `Int | Float | Pointer` selects
operator lowering (spec section 3).  Function values are addresses and
are classified as pointers; non-scalar types never reach a
`scalar_kind` call site. -/
def Ty.scalar_kind : Ty → ScalarKind
  | .f32 | .f64 => .float
  | .pointer _ | .func _ => .pointer
  | _ => .int

inductive Unop where
  | addressOf
  | deref
deriving Repr, DecidableEq

inductive Predicate where
  | eq | ne | ge | le | gt | lt
deriving Repr, DecidableEq

inductive Binop where
  | add | sub | mul | div | and | shl | shr
  | cmp (p : Predicate)
deriving Repr, DecidableEq

mutual

/-- IR expression: a resolved `TypeId` plus an `ExprKind`
(spec section 3; matched throughout `src/llvm.rs`). -/
inductive Expr where
  | mk (ty : TypeId) (kind : ExprKind)
deriving Repr

/-- The `ExprKind` constructors, as matched by `src/llvm.rs`. -/
inductive ExprKind where
  | unit
  | null
  | integer (s : String)
  | float (s : String)
  | string (s : String)
  | bool (b : Bool)
  | char (c : Nat)
  | local (i : Nat)
  | param (i : Nat)
  | funcRef (i : Nat)
  | constRef (i : Nat)
  | typeRef (t : TypeId)
  | unary (op : Unop) (e : Expr)
  | binary (op : Binop) (x y : Expr)
  | index (p i : Expr)
  | field (x : Expr) (i : Nat)
  | enumField (x : Expr) (variant : Nat) (i : Nat)
  | tuple (es : List Expr)
  | structLit (fs : List (Nat × Expr))
  | array (es : List Expr)
  | enumCall (variant : Nat) (args : List Expr)
  | enumVariant (i : Nat)
  | enumTag (e : Expr)
  | call (f : Expr) (args : List Expr)
  | cast (e : Expr) (t : TypeId)
  | sizeof (t : TypeId)
deriving Repr

end

def Expr.ty : Expr → TypeId
  | .mk t _ => t

def Expr.kind : Expr → ExprKind
  | .mk _ k => k

/-- IR statements (spec section 3; matched in `StmtBuilder::build_stmt`).
A block is an ordered statement list. -/
inductive Stmt where
  | assign (x y : Expr)
  | ret (x : Expr)
  | expr (x : Expr)
  | sif (cond : Expr) (body : List Stmt)
  | swhile (cond : Expr) (body : List Stmt)
  | sfor (init : List Stmt) (cond : Expr) (post : List Stmt) (body : List Stmt)
  | brk
  | cont
deriving Repr

structure FuncDecl where
  name : String
  ty : FuncType
deriving Repr

structure FuncBody where
  id : Nat
  locals : List TypeId
  body : List Stmt
deriving Repr

/-! ## Lowered LLVM types -/

/-- Model of `LLVMTypeRef` values as built by `TypeBuilder`.  Named
structs (`LLVMStructCreateNamed`) are identified by their name; their
bodies live in the type builder environment. -/
inductive LLType where
  | int (w : Nat)
  | float
  | double
  | ptr (t : LLType)
  | funcTy (params : List LLType) (ret : LLType) (varArgs : Bool)
  | named (s : String)
  | anon (fields : List LLType)
  | array (t : LLType) (n : Nat)
  | void
deriving Repr

/-- Model of `LLVMGetElementType` (valid on pointer and array types). -/
def LLType.getElementType : LLType → Option LLType
  | .ptr t => some t
  | .array t _ => some t
  | _ => none

/-- The finished `TypeBuilder` state: the IR type table, the parallel
lowered-type table (`lltypes`, one entry per `TypeId`, built by the
two-pass placeholder-then-body construction), and the bodies installed
into named structs by `LLVMStructSetBody`. -/
structure TB where
  types : List Ty
  lltypes : List LLType
  bodies : List (String × List LLType)
deriving Repr

/-- `TypeBuilder::irtype` (`&self.types[ty]`), as a partial lookup. -/
def TB.irtypeOpt (tb : TB) (t : TypeId) : Option Ty := tb.types[t]?

/-- `TypeBuilder::lltype` (`self.lltypes[ty]`), as a partial lookup. -/
def TB.lltypeOpt (tb : TB) (t : TypeId) : Option LLType := tb.lltypes[t]?

/-! ### Target data layout (x86-64 default)

`set_enum_body` sizes variant payloads with `LLVMStoreSizeOfType`.
We model the default x86-64 data layout: `iN` occupies `ceil(N/8)`
bytes, `float` 4, `double` 8, pointers 8; a non-packed struct is laid
out field by field with natural alignment and its store size is padded
to the struct alignment.  Named structs are resolved through the
builder's body environment; `fuel` bounds that indirection. -/

def alignTo (off a : Nat) : Nat :=
  if a = 0 then off else ((off + a - 1) / a) * a

def llAlign (env : List (String × List LLType)) : Nat → LLType → Option Nat
  | 0, _ => none
  | fuel + 1, t =>
    match t with
    | .int w => some (max 1 ((w + 7) / 8))
    | .float => some 4
    | .double => some 8
    | .ptr _ => some 8
    | .funcTy _ _ _ => none
    | .void => none
    | .array t _ => llAlign env fuel t
    | .named s =>
        match env.lookup s with
        | some fields => llAlign env fuel (.anon fields)
        | none => none
    | .anon fields =>
        fields.foldlM (fun acc f => do
          let a ← llAlign env fuel f
          pure (max acc a)) 1

def llStoreSize (env : List (String × List LLType)) : Nat → LLType → Option Nat
  | 0, _ => none
  | fuel + 1, t =>
    match t with
    | .int w => some (max 1 ((w + 7) / 8))
    | .float => some 4
    | .double => some 8
    | .ptr _ => some 8
    | .funcTy _ _ _ => none
    | .void => none
    | .array t n => do
        let s ← llStoreSize env fuel t
        pure (n * s)
    | .named s =>
        match env.lookup s with
        | some fields => llStoreSize env fuel (.anon fields)
        | none => none
    | .anon fields => do
        let off ← fields.foldlM (fun off f => do
          let a ← llAlign env fuel f
          let s ← llStoreSize env fuel f
          pure (alignTo off a + s)) 0
        let salign ← llAlign env (fuel + 1) (.anon fields)
        pure (alignTo off salign)

mutual

/-- Executable size measure on lowered types, used only to pick an
ample fuel for data-layout queries. -/
def LLType.msize : LLType → Nat
  | .ptr t => t.msize + 1
  | .funcTy ps r _ => LLType.msizeList ps + r.msize + 1
  | .anon fs => LLType.msizeList fs + 1
  | .array t _ => t.msize + 1
  | _ => 1

def LLType.msizeList : List LLType → Nat
  | [] => 1
  | t :: ts => t.msize + LLType.msizeList ts + 1

end

/-- Fuel ample enough for any finite type over a finite body
environment. -/
def TB.fuelFor (tb : TB) (t : LLType) : Nat :=
  t.msize + (tb.bodies.foldl (fun acc b => acc + LLType.msizeList b.2) 0) + tb.bodies.length + 1

/-- `LLVMStoreSizeOfType(self.layout, ty)` for a finished builder. -/
def TB.storeSize (tb : TB) (t : LLType) : Option Nat :=
  llStoreSize tb.bodies (tb.fuelFor t) t

/-! ### Enum layout: `TypeBuilder::set_enum_body` -/

/-- The anonymous sequential record for one variant argument list
(`LLVMStructType` over the lowered argument types,
`src/llvm.rs` lines 222-230). -/
def TB.variantRecord (tb : TB) (v : Variant) : Option LLType := do
  let args ← v.args.mapM tb.lltypeOpt
  pure (.anon args)

/-- One step of the `largest` fold in `set_enum_body`
(`src/llvm.rs` lines 233-236): keep the stored record when its size is
greater or equal, else replace. -/
def largestStep (acc : Option (Nat × LLType)) (size : Nat) (rec : LLType)
    : Option (Nat × LLType) :=
  match acc with
  | some (n, other) => if n ≥ size then some (n, other) else some (size, rec)
  | none => some (size, rec)

/-- `TypeBuilder::set_enum_body` (`src/llvm.rs` lines 216-245): the
field list installed into the named enum struct.  Per variant, build
its anonymous record and its target store size, retain the running
largest; field list is `[largest, tag]` when the fold produced a record
and `[tag]` otherwise (the fold produces a record whenever the enum has
at least one variant). -/
def TB.set_enum_body (tb : TB) (ety : EnumType) : Option (List LLType) := do
  let largest ← ety.variants.foldlM (fun acc v => do
    let rec ← tb.variantRecord v
    let size ← tb.storeSize rec
    pure (largestStep acc size rec)) none
  pure (match largest with
        | some (_, t) => [t, .int 8]
        | none => [.int 8])

/-- One variant's (target storage size, anonymous record) pair. -/
def TB.sizeRec (tb : TB) (v : Variant) : Option (Nat × LLType) := do
  let rec ← tb.variantRecord v
  let size ← tb.storeSize rec
  pure (size, rec)

/-- Per-variant (size, record) table, in declaration order; defined so
the first-maximum property of `set_enum_body` can be stated. -/
def TB.variantSizeRecs (tb : TB) (ety : EnumType) : Option (List (Nat × LLType)) :=
  ety.variants.mapM tb.sizeRec

/-! ### Calling convention: `TypeBuilder::func_type` -/

/-- The parameter-slot loop of `func_type` (`src/llvm.rs` lines
256-267): Aggregate parameters become pointers to their lowered type,
Unit parameters are skipped, Scalar parameters are passed directly. -/
def TB.paramSlots (tb : TB) : List TypeId → Option (List LLType)
  | [] => some []
  | ty :: rest => do
      let irty ← tb.irtypeOpt ty
      let rest' ← tb.paramSlots rest
      match irty.kind with
      | .aggregate => do
          let sty ← tb.lltypeOpt ty
          pure (LLType.ptr sty :: rest')
      | .unit => pure rest'
      | .scalar => do
          let sty ← tb.lltypeOpt ty
          pure (sty :: rest')

/-- `TypeBuilder::func_type` (`src/llvm.rs` lines 255-282). -/
def TB.func_type (tb : TB) (f : FuncType) : Option LLType := do
  let params ← tb.paramSlots f.params
  let retTy ← tb.irtypeOpt f.ret
  match retTy.kind with
  | .aggregate => do
      let r ← tb.lltypeOpt f.ret
      pure (.funcTy (params ++ [.ptr r]) .void f.var_args)
  | .unit => pure (.funcTy params .void f.var_args)
  | .scalar => do
      let r ← tb.lltypeOpt f.ret
      pure (.funcTy params r f.var_args)

/-- Spec-side ABI description, written from the spec words (section
4.2): drop Unit parameters, pass Aggregate parameters as a pointer to
caller-allocated storage, pass Scalar parameters by value; Unit return
gives void, Aggregate return gives void plus one trailing
indirect-return-slot pointer appended after the parameter list, Scalar
return is direct.  Stated as a second definition to be compared with
`TB.func_type`. -/
def TB.abiSlot (tb : TB) (ty : TypeId) : Option (Option LLType) := do
  let irty ← tb.irtypeOpt ty
  match irty.kind with
  | .unit => pure none
  | .aggregate => do
      let sty ← tb.lltypeOpt ty
      pure (some (LLType.ptr sty))
  | .scalar => do
      let sty ← tb.lltypeOpt ty
      pure (some sty)

def TB.abiSignature (tb : TB) (f : FuncType) : Option LLType := do
  let slots ← f.params.mapM tb.abiSlot
  let params := slots.reduceOption
  let retTy ← tb.irtypeOpt f.ret
  match retTy.kind with
  | .unit => pure (.funcTy params .void f.var_args)
  | .aggregate => do
      let r ← tb.lltypeOpt f.ret
      pure (.funcTy (params ++ [.ptr r]) .void f.var_args)
  | .scalar => do
      let r ← tb.lltypeOpt f.ret
      pure (.funcTy params r f.var_args)

/-! ### The scalar cast matrix (`StmtBuilder::build_scalar`, Cast arm) -/

/-- Which LLVM cast operation the Cast arm selects. -/
inductive CastKind where
  | identity
  | sext
  | trunc
  | sitofp
  | fptosi
  | fpext
  | fptrunc
  | ptrcast
deriving Repr, DecidableEq

/-- The source/destination type match in the Cast arm of
`build_scalar` (`src/llvm.rs` lines 841-876); `none` corresponds to the
`unimplemented!` fatal failure. -/
def castKind : Ty → Ty → Option CastKind
  | .i8, .i8 | .i16, .i16 | .i32, .i32 | .i64, .i64
  | .f32, .f32 | .f64, .f64 => some .identity
  | .i8, .i16 | .i8, .i32 | .i8, .i64
  | .i16, .i32 | .i16, .i64
  | .i32, .i64 => some .sext
  | .i64, .i32 | .i64, .i16 | .i64, .i8
  | .i32, .i16 | .i32, .i8
  | .i16, .i8 => some .trunc
  | .i32, .f32 | .i32, .f64 => some .sitofp
  | .f32, .i32 => some .fptosi
  | .f32, .f64 => some .fpext
  | .f64, .f32 => some .fptrunc
  | .pointer _, .pointer _ => some .ptrcast
  | _, _ => none

/-- Two's-complement reading of `w` low bits. -/
def toSigned (w : Nat) (n : Nat) : Int :=
  if n % 2 ^ w < 2 ^ (w - 1) then ((n % 2 ^ w : Nat) : Int)
  else ((n % 2 ^ w : Nat) : Int) - (2 ^ w : Nat)

/-- Semantics of the LLVM `trunc` instruction on a signed integer
value: keep the low `w` bits, read back signed. -/
def truncSem (w : Nat) (v : Int) : Int :=
  toSigned w (v % (2 ^ w : Nat)).toNat

/-- Semantics of the LLVM `sext` instruction applied to a `w`-bit
pattern: the signed value is preserved at every wider width. -/
def sextSem (w : Nat) (bits : Nat) : Int :=
  toSigned w bits

def Ty.isIntTy : Ty → Bool
  | .i8 | .i16 | .i32 | .i64 => true
  | _ => false

def Ty.intWidth : Ty → Nat
  | .i8 => 8
  | .i16 => 16
  | .i32 => 32
  | .i64 => 64
  | _ => 0

def Ty.isFloatTy : Ty → Bool
  | .f32 | .f64 => true
  | _ => false

def Ty.isPtrTy : Ty → Bool
  | .pointer _ => true
  | _ => false

/-- The cast matrix exactly as the claim states it: identity on the
same type, integer widening, integer narrowing, conversion between the
32-bit integer type and either float width in both directions, float
resizing, pointer-to-pointer. -/
def c5ClaimedCastOk (s d : Ty) : Bool :=
  (s = d) ||
  (s.isIntTy && d.isIntTy && s.intWidth < d.intWidth) ||
  (s.isIntTy && d.isIntTy && d.intWidth < s.intWidth) ||
  (s = .i32 && d.isFloatTy) || (s.isFloatTy && d = .i32) ||
  (s.isFloatTy && d.isFloatTy && s ≠ d) ||
  (s.isPtrTy && d.isPtrTy)

/-- The cast matrix the code actually implements: identity only
between equal types among the six numeric types, integer widening and
narrowing, I32 to either float width, F32 (but not F64) back to I32,
float resizing, pointer-to-pointer. -/
def c5AmendedCastOk (s d : Ty) : Bool :=
  (s = d && (s.isIntTy || s.isFloatTy)) ||
  (s.isIntTy && d.isIntTy && s.intWidth < d.intWidth) ||
  (s.isIntTy && d.isIntTy && d.intWidth < s.intWidth) ||
  (s = .i32 && d.isFloatTy) || (s = .f32 && d = .i32) ||
  (s.isFloatTy && d.isFloatTy && s ≠ d) ||
  (s.isPtrTy && d.isPtrTy)

/-! ### Integer literal lowering in `src/codegen.rs` -/

def digitsVal : List Char → Option Nat
  | [] => none
  | l =>
    l.foldlM (fun acc c =>
      if c.isDigit then some (acc * 10 + (c.toNat - 48)) else none) 0

/-- Rust `i64::from_str`: optional sign, decimal digits, 64-bit signed
range check (overflow is a parse error). -/
def parseI64 (s : String) : Option Int := do
  let v ← match s.toList with
    | '+' :: rest => (digitsVal rest).map (fun n => (n : Int))
    | '-' :: rest => (digitsVal rest).map (fun n => -(n : Int))
    | l => (digitsVal l).map (fun n => (n : Int))
  if -(2 ^ 63 : Int) ≤ v ∧ v < 2 ^ 63 then some v else none

/-- Parsing a literal under its declared type, as the claim words it:
the value must fit the declared signed width. -/
def parseAtWidth (w : Nat) (s : String) : Option Int := do
  let v ← parseI64 s
  if -(2 ^ (w - 1) : Int) ≤ v ∧ v < 2 ^ (w - 1) then some v else none

/-- `build_value` for `ExprKind::Integer` in `src/codegen.rs` lines
210-220: parse the text with `s.parse::<i64>()`; on failure print the
message and call `error()` (the run terminates); on success emit
`LLVMConstInt(lltype, i as u64, 0)`, which keeps the low `w` bits of
the value.  The result is the signed value of the emitted constant. -/
def codegenBuildInteger (w : Nat) (s : String) : Except String Int :=
  match parseI64 s with
  | none => .error "unable to parse as integer"
  | some i => .ok (toSigned w (i % (2 ^ 64 : Nat)).toNat)

/-! ### `unescape` (`src/llvm.rs` lines 915-935) -/

def unescapeStep (st : String × Bool) (c : Char) : String × Bool :=
  let (x, backslash) := st
  let escaped := backslash
  if c = '\\' ∧ ¬escaped then (x, true)
  else if c = 'n' ∧ escaped then (x.push '\n', false)
  else if c = 't' ∧ escaped then (x.push '\t', false)
  else (x.push c, false)

def unescape (s : String) : String :=
  let inner := (s.toList.drop 1).dropLast
  (inner.foldl unescapeStep ("", false)).1

/-! ## LLVM values and instructions

`LLVMValueRef` results are modelled as an inductive: instruction
results are numbered registers (fresh per emission, mirroring the
builder handing back a new `LLVMValueRef` per call), function
parameters, function addresses, and the pure constants produced by the
`LLVMConst*` entry points. -/

inductive Val where
  | reg (n : Nat)
  | param (i : Nat)
  | fnAddr (i : Nat)
  | constInt (t : LLType) (v : Nat)
  | constIntStr (t : LLType) (s : String) (radix : Nat)
  | constReal (t : LLType) (s : String)
  | constNull (t : LLType)
  | sizeofVal (t : LLType)
  | globalStr (s : String)
deriving Repr

inductive ArithOp where
  | add | sub | mul | sdiv | and | shl | lshr
  | fadd | fsub | fmul | fdiv
deriving Repr, DecidableEq

inductive IntPred where
  | eq | ne | sge | sle | sgt | slt
deriving Repr, DecidableEq

inductive RealPred where
  | oeq | one | oge | ole | ogt | olt
deriving Repr, DecidableEq

/-- Instructions appended to basic blocks by the `LLVMBuild*` calls
used in `src/llvm.rs`. -/
inductive Instr where
  | br (b : Nat)
  | condBr (c : Val) (t f : Nat)
  | ret (v : Val)
  | retVoid
  | store (v p : Val)
  | load (t : LLType) (p : Val)
  | alloca (t : LLType)
  | gep (elem : LLType) (base : Val) (idxs : List Val)
  | gepInbounds (elem : LLType) (base : Val) (idxs : List Val)
  | structGEP (agg : LLType) (base : Val) (i : Nat)
  | ptrCast (v : Val) (t : LLType)
  | callInstr (fnty : LLType) (f : Val) (args : List Val)
  | arith (op : ArithOp) (x y : Val)
  | icmp (p : IntPred) (x y : Val)
  | fcmp (p : RealPred) (x y : Val)
  | sext (v : Val) (t : LLType)
  | trunc (v : Val) (t : LLType)
  | sitofp (v : Val) (t : LLType)
  | fptosi (v : Val) (t : LLType)
  | fpext (v : Val) (t : LLType)
  | fptrunc (v : Val) (t : LLType)
  | ptrDiff (x y : Val)
deriving Repr

/-- Whether an instruction is a block terminator
(`LLVMGetBasicBlockTerminator` reports exactly these). -/
def Instr.isTerm : Instr → Bool
  | .br _ | .condBr _ _ _ | .ret _ | .retVoid => true
  | _ => false

/-! ## The expression-emission monad

Expression lowering in `StmtBuilder` only ever appends
non-terminator instructions to the current block and consumes fresh
value names; it never creates blocks, repositions the builder, or
touches the break/continue stacks.  The monad `EM` makes this
discipline a type-level fact: every `EM` computation carries a proof
that a successful run only appends non-terminator instructions. -/

structure ESt where
  instrs : List Instr
  nextReg : Nat
deriving Repr

def EMRaw (α : Type) := ESt → Except String (α × ESt)

/-- A successful run appends instructions, none of them terminators. -/
def emExtends {α : Type} (m : EMRaw α) : Prop :=
  ∀ s a s2, m s = .ok (a, s2) →
    ∃ d, s2.instrs = s.instrs ++ d ∧ ∀ i ∈ d, i.isTerm = false

def EM (α : Type) := {m : EMRaw α // emExtends m}

def EM.pure {α : Type} (a : α) : EM α :=
  ⟨fun s => .ok (a, s), by
    intro s a2 s2 h
    cases h
    exact ⟨[], by simp, by simp⟩⟩

def EM.bind {α β : Type} (m : EM α) (f : α → EM β) : EM β :=
  ⟨fun s =>
    match m.val s with
    | .error e => .error e
    | .ok (a, s1) => (f a).val s1, by
    intro s b s2 h
    simp only at h
    cases hm : m.val s with
    | error e => rw [hm] at h; cases h
    | ok p =>
      obtain ⟨a, s1⟩ := p
      rw [hm] at h
      obtain ⟨d1, hd1, hnt1⟩ := m.property s a s1 hm
      obtain ⟨d2, hd2, hnt2⟩ := (f a).property s1 b s2 h
      refine ⟨d1 ++ d2, by rw [hd2, hd1, List.append_assoc], ?_⟩
      intro i hi
      rcases List.mem_append.mp hi with h1 | h2
      exacts [hnt1 i h1, hnt2 i h2]⟩

instance : Monad EM where
  pure := EM.pure
  bind := EM.bind

def EM.fail {α : Type} (msg : String) : EM α :=
  ⟨fun _ => .error msg, by intro s a s2 h; cases h⟩

/-- Emit one non-terminator instruction into the current block and
hand back its fresh result value. -/
def emitNT (i : Instr) (h : i.isTerm = false) : EM Val :=
  ⟨fun s => .ok (.reg s.nextReg, ⟨s.instrs ++ [i], s.nextReg + 1⟩), by
    intro s a s2 hh
    cases hh
    refine ⟨[i], rfl, ?_⟩
    intro j hj
    rw [List.mem_singleton.mp hj]
    exact h⟩

/-- Lift a partial lookup; `none` is a fatal internal error (a Rust
index panic). -/
def EM.lift {α : Type} (o : Option α) (msg : String) : EM α :=
  match o with
  | some a => EM.pure a
  | none => EM.fail msg

/-! ## The per-function lowering context

The immutable parts of `StmtBuilder`: the finished type builder, the
function-address and constant tables, the local alloca addresses and
the indirect-return slot. -/

structure Ctx where
  tb : TB
  llfuncs : List Val
  llconsts : List Val
  locals : List Val
  sret : Option Val

def irtypeE (ctx : Ctx) (t : TypeId) : EM Ty :=
  EM.lift (ctx.tb.irtypeOpt t) "type index out of range"

def lltypeE (ctx : Ctx) (t : TypeId) : EM LLType :=
  EM.lift (ctx.tb.lltypeOpt t) "lowered type index out of range"

def localE (ctx : Ctx) (i : Nat) : EM Val :=
  EM.lift ctx.locals[i]? "local index out of range"

def llfuncE (ctx : Ctx) (i : Nat) : EM Val :=
  EM.lift ctx.llfuncs[i]? "function index out of range"

def llconstE (ctx : Ctx) (i : Nat) : EM Val :=
  EM.lift ctx.llconsts[i]? "constant index out of range"

/-- The classification-directed result of `build_expr`
(`enum Value` in `src/llvm.rs`). -/
inductive Value where
  | unit
  | scalar (v : Val)
  | aggregate (p : Val)
deriving Repr

def mapIntPred : Predicate → IntPred
  | .eq => .eq
  | .ne => .ne
  | .ge => .sge
  | .le => .sle
  | .gt => .sgt
  | .lt => .slt

def mapRealPred : Predicate → RealPred
  | .eq => .oeq
  | .ne => .one
  | .ge => .oge
  | .le => .ole
  | .gt => .ogt
  | .lt => .olt

/-- `StmtBuilder::copy` (`src/llvm.rs` lines 720-735). -/
def copy (ctx : Ctx) (ty : TypeId) (src dst : Val) : EM Unit := do
  let irty ← irtypeE ctx ty
  match irty.kind with
  | .unit => EM.pure ()
  | .aggregate => do
      let lltype ← lltypeE ctx ty
      let v ← emitNT (.load lltype src) rfl
      let _ ← emitNT (.store v dst) rfl
      EM.pure ()
  | .scalar => do
      let lltype ← lltypeE ctx ty
      let v ← emitNT (.load lltype src) rfl
      let _ ← emitNT (.store v dst) rfl
      EM.pure ()

/-! ## Expression lowering (`StmtBuilder`, `src/llvm.rs` lines 469-912) -/

mutual

/-- `StmtBuilder::build_expr` (lines 533-558): classification-directed
dispatch; Aggregate expressions materialize into the destination, a
fresh alloca standing in when none is given. -/
def build_expr (ctx : Ctx) (e : Expr) (dst : Option Val) : EM Value := do
  let irty ← irtypeE ctx e.ty
  match irty.kind with
  | .unit => do
      build_unit ctx e
      EM.pure Value.unit
  | .aggregate => do
      let p ← match dst with
        | some p => EM.pure p
        | none => do
            let sty ← lltypeE ctx e.ty
            emitNT (.alloca sty) rfl
      build_aggregate ctx e p
      EM.pure (Value.aggregate p)
  | .scalar => do
      let v ← build_scalar ctx e
      match dst with
      | some d => do
          let _ ← emitNT (.store v d) rfl
          EM.pure (Value.scalar v)
      | none => EM.pure (Value.scalar v)
termination_by (sizeOf e, 3)

/-- The prefix of `StmtBuilder::build_call` (lines 566-582): resolve
the callee function type introducing the function value, then lower the
arguments left to right. -/
def build_call_pre (ctx : Ctx) (f : Expr) (args : List Expr) :
    EM (LLType × Val × List Val) := do
  let fnty ← match ← irtypeE ctx f.ty with
    | Ty.func _ => EM.pure f.ty
    | Ty.pointer t => EM.pure t
    | _ => EM.fail "callee is not a function"
  let fnll ← lltypeE ctx fnty
  let fv ← build_scalar ctx f
  let args2 ← build_call_args ctx args []
  EM.pure (fnll, fv, args2)
termination_by (sizeOf f + sizeOf args + 1, 1)

/-- `StmtBuilder::build_call` (lines 560-594): after the prefix, the
indirect-return destination (when present) is pushed as one extra
trailing argument, then the call is emitted. -/
def build_call (ctx : Ctx) (f : Expr) (args : List Expr) (sret : Option Val) : EM Val := do
  let (fnll, fv, args2) ← build_call_pre ctx f args
  let args3 := match sret with
    | some s => args2 ++ [s]
    | none => args2
  emitNT (.callInstr fnll fv args3) rfl
termination_by (sizeOf f + sizeOf args + 1, 2)

/-- The argument loop of `build_call` (lines 573-582): each argument is
lowered with no destination; Unit results are skipped, Aggregate
results push their address, Scalar results push their value. -/
def build_call_args (ctx : Ctx) : List Expr → List Val → EM (List Val)
  | [], acc => EM.pure acc
  | a :: rest, acc => do
      let v ← build_expr ctx a none
      match v with
      | .unit => build_call_args ctx rest acc
      | .aggregate p => build_call_args ctx rest (acc ++ [p])
      | .scalar w => build_call_args ctx rest (acc ++ [w])
termination_by args _ => (sizeOf args, 0)

/-- `StmtBuilder::build_unit` (lines 596-604). -/
def build_unit (ctx : Ctx) (e : Expr) : EM Unit :=
  match e with
  | .mk _ .unit => EM.pure ()
  | .mk _ (.call f args) => do
      let _ ← build_call ctx f args none
      EM.pure ()
  | .mk _ _ => EM.fail "expected unit expression"
termination_by (sizeOf e, 2)

/-- `StmtBuilder::build_place` (lines 469-531). -/
def build_place (ctx : Ctx) (e : Expr) : EM Val :=
  match e with
  | .mk _ (.local i) => localE ctx i
  | .mk _ (.param i) => EM.pure (Val.param i)
  | .mk _ (.index p i) => do
      let pty ← lltypeE ctx p.ty
      let elem ← match pty.getElementType with
        | some el => EM.pure el
        | none => EM.fail "get element type"
      let ty ← irtypeE ctx p.ty
      let pv ← match ty.kind with
        | .aggregate => build_place ctx p
        | .scalar =>
            if ty.scalar_kind = ScalarKind.pointer then build_scalar ctx p
            else EM.fail "assertion failed: indexing a non-pointer scalar"
        | .unit => EM.fail "indexing a unit value"
      let iv ← build_scalar ctx i
      emitNT (.gep elem pv [iv]) rfl
  | .mk _ (.field x i) => do
      let ty ← irtypeE ctx x.ty
      let sp ← match ty with
        | Ty.tuple _ => do
            let p ← build_place ctx x
            EM.pure (x.ty, p)
        | Ty.strct _ => do
            let p ← build_place ctx x
            EM.pure (x.ty, p)
        | Ty.pointer t => do
            let p ← build_scalar ctx x
            EM.pure (t, p)
        | _ => EM.fail "field access on a non-record"
      let sty ← lltypeE ctx sp.1
      emitNT (.structGEP sty sp.2 i) rfl
  | .mk _ (.unary .deref p) => build_scalar ctx p
  | .mk _ (.funcRef i) => llfuncE ctx i
  | .mk _ (.enumField x variant i) => do
      let enty ← match ← irtypeE ctx x.ty with
        | Ty.enm enty => EM.pure enty
        | _ => EM.fail "expected enum type"
      let vnt ← EM.lift enty.variants[variant]? "variant index out of range"
      let xargs ← vnt.args.mapM (lltypeE ctx)
      let variantTy := LLType.anon xargs
      let ety ← lltypeE ctx x.ty
      let enumPtr ← build_place ctx x
      let bodyPtr ← emitNT (.structGEP ety enumPtr 0) rfl
      let variantPtr ← emitNT (.ptrCast bodyPtr (.ptr variantTy)) rfl
      emitNT (.structGEP variantTy variantPtr i) rfl
  | .mk _ _ => EM.fail "build place: not a place expression"
termination_by (sizeOf e, 1)

/-- `StmtBuilder::build_aggregate` (lines 606-718). -/
def build_aggregate (ctx : Ctx) (e : Expr) (dst : Val) : EM Unit :=
  match e with
  | .mk ty (.tuple elems) => do
      let tupleTy ← lltypeE ctx ty
      build_tuple_elems ctx tupleTy dst 0 elems
  | .mk ty (.structLit fields) => do
      let sty ← lltypeE ctx ty
      build_struct_fields ctx sty dst fields
  | .mk ty (.array elems) => do
      let aty ← lltypeE ctx ty
      build_array_elems ctx aty dst 0 elems
  | .mk _ (.call f args) => do
      let _ ← build_call ctx f args (some dst)
      EM.pure ()
  | .mk ty (.param i) => copy ctx ty (Val.param i) dst
  | .mk ty (.unary .deref p) => do
      let pv ← build_scalar ctx p
      copy ctx ty pv dst
  | .mk ty (.enumCall variant args) => do
      let ety ← lltypeE ctx ty
      let tagIndex : Nat := if args.length = 0 then 0 else 1
      let tagPtr ← emitNT (.structGEP ety dst tagIndex) rfl
      let tagValue : Val := .constInt (.int 8) variant
      let _ ← emitNT (.store tagValue tagPtr) rfl
      if args.length = 0 then EM.pure ()
      else do
        let enty ← match ← irtypeE ctx ty with
          | Ty.enm enty => EM.pure enty
          | _ => EM.fail "expected enum type"
        let vnt ← EM.lift enty.variants[variant]? "variant index out of range"
        let xargs ← vnt.args.mapM (lltypeE ctx)
        let variantTy := LLType.anon xargs
        let bodyPtr ← emitNT (.structGEP ety dst 0) rfl
        let variantPtr ← emitNT (.ptrCast bodyPtr (.ptr variantTy)) rfl
        build_enum_args ctx variantTy variantPtr 0 args
  | .mk _ (.enumField _ _ _) => EM.fail "unimplemented: enum field as aggregate"
  | .mk _ .null | .mk _ .unit | .mk _ (.integer _) | .mk _ (.float _)
  | .mk _ (.funcRef _) | .mk _ (.typeRef _) | .mk _ (.unary _ _)
  | .mk _ (.binary _ _ _) | .mk _ (.string _) | .mk _ (.cast _ _)
  | .mk _ (.bool _) | .mk _ (.char _) | .mk _ (.sizeof _)
  | .mk _ (.enumVariant _) | .mk _ (.enumTag _) =>
      EM.fail "got scalar expression in aggregate place"
  | .mk _ (.constRef _) => EM.fail "unimplemented: const in aggregate place"
  | .mk ty (.field x i) => do
      let p ← build_place ctx (.mk ty (.field x i))
      copy ctx ty p dst
  | .mk ty (.index x i) => do
      let p ← build_place ctx (.mk ty (.index x i))
      copy ctx ty p dst
  | .mk ty (.local i) => do
      let p ← build_place ctx (.mk ty (.local i))
      copy ctx ty p dst
termination_by (sizeOf e, 2)

/-- The element loop of the Tuple arm of `build_aggregate`
(lines 608-615). -/
def build_tuple_elems (ctx : Ctx) (tupleTy : LLType) (dstV : Val) (i : Nat) :
    List Expr → EM Unit
  | [] => EM.pure ()
  | e :: rest => do
      let dst2 ← emitNT (.structGEP tupleTy dstV i) rfl
      let _ ← build_expr ctx e (some dst2)
      build_tuple_elems ctx tupleTy dstV (i + 1) rest
termination_by es => (sizeOf es, 0)

/-- The field loop of the Struct arm of `build_aggregate`
(lines 616-623). -/
def build_struct_fields (ctx : Ctx) (sty : LLType) (dstV : Val) :
    List (Nat × Expr) → EM Unit
  | [] => EM.pure ()
  | (i, e) :: rest => do
      let dst2 ← emitNT (.structGEP sty dstV i) rfl
      let _ ← build_expr ctx e (some dst2)
      build_struct_fields ctx sty dstV rest
termination_by fs => (sizeOf fs, 0)

/-- The element loop of the Array arm of `build_aggregate`
(lines 624-637). -/
def build_array_elems (ctx : Ctx) (aty : LLType) (dstV : Val) (i : Nat) :
    List Expr → EM Unit
  | [] => EM.pure ()
  | e :: rest => do
      let z : Val := .constInt (.int 32) 0
      let iv : Val := .constInt (.int 32) i
      let dst2 ← emitNT (.gepInbounds aty dstV [z, iv]) rfl
      let _ ← build_expr ctx e (some dst2)
      build_array_elems ctx aty dstV (i + 1) rest
termination_by es => (sizeOf es, 0)

/-- The argument-store loop of the EnumCall arm of `build_aggregate`
(lines 684-689). -/
def build_enum_args (ctx : Ctx) (variantTy : LLType) (variantPtr : Val) (i : Nat) :
    List Expr → EM Unit
  | [] => EM.pure ()
  | e :: rest => do
      let argPtr ← emitNT (.structGEP variantTy variantPtr i) rfl
      let _ ← build_expr ctx e (some argPtr)
      build_enum_args ctx variantTy variantPtr (i + 1) rest
termination_by es => (sizeOf es, 0)

/-- `StmtBuilder::build_scalar` (lines 737-912). -/
def build_scalar (ctx : Ctx) (e : Expr) : EM Val :=
  match e with
  | .mk ty (.index x i) => do
      let p ← build_place ctx (.mk ty (.index x i))
      let elemType ← lltypeE ctx ty
      emitNT (.load elemType p) rfl
  | .mk ty (.field x i) => do
      let p ← build_place ctx (.mk ty (.field x i))
      let elemType ← lltypeE ctx ty
      emitNT (.load elemType p) rfl
  | .mk ty (.enumField x v i) => do
      let p ← build_place ctx (.mk ty (.enumField x v i))
      let elemType ← lltypeE ctx ty
      emitNT (.load elemType p) rfl
  | .mk ty (.float s) => do
      let lltype ← lltypeE ctx ty
      EM.pure (Val.constReal lltype s)
  | .mk ty (.integer s) => do
      let lltype ← lltypeE ctx ty
      EM.pure (Val.constIntStr lltype s 10)
  | .mk ty (.local i) => do
      let lltype ← lltypeE ctx ty
      let p ← localE ctx i
      emitNT (.load lltype p) rfl
  | .mk _ (.param i) => EM.pure (Val.param i)
  | .mk _ (.funcRef i) => llfuncE ctx i
  | .mk ty (.binary op x y) => do
      let irty ← irtypeE ctx x.ty
      let kind := irty.scalar_kind
      let xv ← build_scalar ctx x
      let yv ← build_scalar ctx y
      match op, kind with
      | .add, .int => emitNT (.arith .add xv yv) rfl
      | .sub, .int => emitNT (.arith .sub xv yv) rfl
      | .mul, .int => emitNT (.arith .mul xv yv) rfl
      | .div, .int => emitNT (.arith .sdiv xv yv) rfl
      | .and, .int => emitNT (.arith .and xv yv) rfl
      | .shl, .int => emitNT (.arith .shl xv yv) rfl
      | .shr, .int => emitNT (.arith .lshr xv yv) rfl
      | .add, .float => emitNT (.arith .fadd xv yv) rfl
      | .sub, .float => emitNT (.arith .fsub xv yv) rfl
      | .mul, .float => emitNT (.arith .fmul xv yv) rfl
      | .div, .float => emitNT (.arith .fdiv xv yv) rfl
      | .add, .pointer => do
          let pty ← lltypeE ctx ty
          match pty.getElementType with
          | some elem => emitNT (.gep elem xv [yv]) rfl
          | none => EM.fail "get element type"
      | .sub, .pointer => emitNT (.ptrDiff xv yv) rfl
      | .cmp pred, .float => emitNT (.fcmp (mapRealPred pred) xv yv) rfl
      | .cmp pred, .int => emitNT (.icmp (mapIntPred pred) xv yv) rfl
      | .cmp pred, .pointer => emitNT (.icmp (mapIntPred pred) xv yv) rfl
      | _, _ => EM.fail "unimplemented operator and kind"
  | .mk _ (.string s) => EM.pure (Val.globalStr (unescape s))
  | .mk _ (.call f args) => build_call ctx f args none
  | .mk _ (.cast e2 tyc) => do
      let dst_ty ← irtypeE ctx tyc
      let src_ty ← irtypeE ctx e2.ty
      let dst_llty ← lltypeE ctx tyc
      let v ← build_scalar ctx e2
      match castKind src_ty dst_ty with
      | some .identity => EM.pure v
      | some .sext => emitNT (.sext v dst_llty) rfl
      | some .trunc => emitNT (.trunc v dst_llty) rfl
      | some .sitofp => emitNT (.sitofp v dst_llty) rfl
      | some .fptosi => emitNT (.fptosi v dst_llty) rfl
      | some .fpext => emitNT (.fpext v dst_llty) rfl
      | some .fptrunc => emitNT (.fptrunc v dst_llty) rfl
      | some .ptrcast => emitNT (.ptrCast v dst_llty) rfl
      | none => EM.fail "unimplemented cast"
  | .mk _ (.bool true) => EM.pure (Val.constInt (.int 1) 1)
  | .mk _ (.bool false) => EM.pure (Val.constInt (.int 1) 0)
  | .mk _ (.unary .addressOf e2) => build_place ctx e2
  | .mk ty (.unary .deref p) => do
      let lltype ← lltypeE ctx ty
      let pv ← build_scalar ctx p
      emitNT (.load lltype pv) rfl
  | .mk _ (.sizeof t) => do
      let lltype ← lltypeE ctx t
      EM.pure (Val.sizeofVal lltype)
  | .mk _ (.constRef i) => llconstE ctx i
  | .mk ty .null => do
      let lltype ← lltypeE ctx ty
      EM.pure (Val.constNull lltype)
  | .mk ty (.char c) => do
      let lltype ← lltypeE ctx ty
      EM.pure (Val.constInt lltype c)
  | .mk ty (.enumVariant i) => do
      let irty ← irtypeE ctx ty
      if irty = Ty.i8 then do
        let lltype ← lltypeE ctx ty
        EM.pure (Val.constInt lltype i)
      else EM.fail "assertion failed: enum variant type is not i8"
  | .mk _ (.enumTag en) => do
      let p ← build_place ctx en
      let enty ← lltypeE ctx en.ty
      let tagPtr ← emitNT (.structGEP enty p 1) rfl
      emitNT (.load (.int 8) tagPtr) rfl
  | .mk _ _ => EM.fail "expected scalar expression"
termination_by (sizeOf e, 2)

end

/-! ## Statement lowering (`StmtBuilder::build_stmt`, `src/llvm.rs` lines 367-467)

The statement builder additionally manipulates basic blocks: the
mutable state is the block list (block ids are list indices, in
creation order, mirroring `LLVMAppendBasicBlock`), the current
insertion block, the fresh-value counter and the break/continue target
stacks. -/

structure BState where
  blocks : List (List Instr)
  cur : Nat
  nextReg : Nat
  breakDest : List Nat
  continueDest : List Nat
deriving Repr

def BM (α : Type) := BState → Except String (α × BState)

def BM.pure {α : Type} (a : α) : BM α := fun s => .ok (a, s)

def BM.bind {α β : Type} (m : BM α) (f : α → BM β) : BM β := fun s =>
  match m s with
  | .error e => .error e
  | .ok (a, s1) => f a s1

instance : Monad BM where
  pure := BM.pure
  bind := BM.bind

def BM.fail {α : Type} (msg : String) : BM α := fun _ => .error msg

/-- Run an expression-level computation at the end of the current
block (the builder stays positioned there). -/
def liftE {α : Type} (m : EM α) : BM α := fun st =>
  match st.blocks[st.cur]? with
  | none => .error "builder not positioned at a block"
  | some instrs =>
    match m.val ⟨instrs, st.nextReg⟩ with
    | .error e => .error e
    | .ok (a, s2) =>
        .ok (a, { st with blocks := st.blocks.set st.cur s2.instrs,
                          nextReg := s2.nextReg })

/-- `LLVMAppendBasicBlock`: a fresh empty block at the end of the
function; its id is handed back. -/
def appendBlock : BM Nat := fun st =>
  .ok (st.blocks.length, { st with blocks := st.blocks ++ [[]] })

/-- `position_at_end` (`src/llvm.rs` lines 362-365). -/
def positionAtEnd (b : Nat) : BM Unit := fun st =>
  .ok ((), { st with cur := b })

/-- Emit any instruction (terminators included) at the end of the
current block. -/
def emitT (i : Instr) : BM Val := fun st =>
  match st.blocks[st.cur]? with
  | none => .error "builder not positioned at a block"
  | some instrs =>
      .ok (.reg st.nextReg,
           { st with blocks := st.blocks.set st.cur (instrs ++ [i]),
                     nextReg := st.nextReg + 1 })

/-- `LLVMGetBasicBlockTerminator(self.block).is_null()`: in LLVM the
terminator query inspects the final instruction of the block. -/
def curUnterminated : BM Bool := fun st =>
  match st.blocks[st.cur]? with
  | none => .error "builder not positioned at a block"
  | some instrs =>
      .ok ((match instrs.getLast? with
            | some i => !i.isTerm
            | none => true), st)

def pushBreak (b : Nat) : BM Unit := fun st =>
  .ok ((), { st with breakDest := st.breakDest ++ [b] })

def popBreak : BM Unit := fun st =>
  .ok ((), { st with breakDest := st.breakDest.dropLast })

def pushContinue (b : Nat) : BM Unit := fun st =>
  .ok ((), { st with continueDest := st.continueDest ++ [b] })

def popContinue : BM Unit := fun st =>
  .ok ((), { st with continueDest := st.continueDest.dropLast })

def topBreak : BM (Option Nat) := fun st => .ok (st.breakDest.getLast?, st)

def topContinue : BM (Option Nat) := fun st => .ok (st.continueDest.getLast?, st)

mutual

/-- `StmtBuilder::build_stmt` (`src/llvm.rs` lines 367-467). -/
def build_stmt (ctx : Ctx) : Stmt → BM Unit
  | .brk => do
      match ← topBreak with
      | none => BM.fail "cannot break outside of loop"
      | some b => do
          let _ ← emitT (.br b)
          BM.pure ()
  | .cont => do
      match ← topContinue with
      | none => BM.fail "cannot continue outside of loop"
      | some b => do
          let _ ← emitT (.br b)
          BM.pure ()
  | .sfor init cond post body => do
      build_block ctx init
      let head ← appendBlock
      let then1 ← appendBlock
      let tail ← appendBlock
      let done ← appendBlock
      let _ ← emitT (.br head)
      positionAtEnd head
      let c ← liftE (build_scalar ctx cond)
      let _ ← emitT (.condBr c then1 done)
      positionAtEnd then1
      pushBreak done
      pushContinue tail
      build_block ctx body
      popBreak
      popContinue
      if (← curUnterminated) then do
        let _ ← emitT (.br tail)
        BM.pure ()
      else BM.pure ()
      positionAtEnd tail
      build_block ctx post
      let _ ← emitT (.br head)
      positionAtEnd done
  | .swhile cond body => do
      let head ← appendBlock
      let then1 ← appendBlock
      let done ← appendBlock
      let _ ← emitT (.br head)
      positionAtEnd head
      let c ← liftE (build_scalar ctx cond)
      let _ ← emitT (.condBr c then1 done)
      positionAtEnd then1
      pushBreak done
      pushContinue head
      build_block ctx body
      popBreak
      popContinue
      if (← curUnterminated) then do
        let _ ← emitT (.br head)
        BM.pure ()
      else BM.pure ()
      positionAtEnd done
  | .sif cond body => do
      let c ← liftE (build_scalar ctx cond)
      let then1 ← appendBlock
      let done ← appendBlock
      let _ ← emitT (.condBr c then1 done)
      positionAtEnd then1
      build_block ctx body
      if (← curUnterminated) then do
        let _ ← emitT (.br done)
        BM.pure ()
      else BM.pure ()
      positionAtEnd done
  | .assign x y => do
      let p ← liftE (build_place ctx x)
      let _ ← liftE (build_expr ctx y (some p))
      BM.pure ()
  | .ret x => do
      let v ← liftE (build_expr ctx x ctx.sret)
      match v with
      | .unit => do
          let _ ← emitT .retVoid
          BM.pure ()
      | .aggregate _ => do
          let _ ← emitT .retVoid
          BM.pure ()
      | .scalar w => do
          let _ ← emitT (.ret w)
          BM.pure ()
  | .expr x => do
      let _ ← liftE (build_expr ctx x none)
      BM.pure ()

/-- `StmtBuilder::build_block` (lines 356-360): lower the statements
in order (the same loop lowers For initializer and post lists). -/
def build_block (ctx : Ctx) : List Stmt → BM Unit
  | [] => BM.pure ()
  | s :: rest => do
      build_stmt ctx s
      build_block ctx rest

end

/-! ## Function-body lowering (`build_func_body`, `src/llvm.rs` lines 285-331) -/

/-- The alloca loop for local slots (lines 303-309). -/
def alloca_locals (tb : TB) : List TypeId → BM (List Val)
  | [] => BM.pure []
  | t :: rest => do
      let lltype ← match tb.lltypeOpt t with
        | some l => BM.pure l
        | none => BM.fail "lowered type index out of range"
      let p ← emitT (.alloca lltype)
      let ps ← alloca_locals tb rest
      BM.pure (p :: ps)

/-- The indirect-return slot: `LLVMGetLastParam` when the declared
return type is Aggregate (lines 297-301); the last ABI parameter is
the sret pointer appended by `func_type`. -/
def sretOf (tb : TB) (fd : FuncDecl) : Except String (Option Val) :=
  match tb.irtypeOpt fd.ty.ret with
  | none => .error "type index out of range"
  | some retTy =>
    match retTy.kind with
    | .aggregate =>
        match tb.func_type fd.ty with
        | some (.funcTy ps _ _) => .ok (some (Val.param (ps.length - 1)))
        | _ => .error "function type lowering failed"
    | .unit => .ok none
    | .scalar => .ok none

/-- `build_func_body` up to and including the statement loop (lines
285-325): entry block, local allocas, then the body statements. -/
def build_func_body_core (tb : TB) (llfuncs llconsts : List Val)
    (fd : FuncDecl) (body : FuncBody) : Except String BState :=
  match sretOf tb fd with
  | .error e => .error e
  | .ok sret =>
    let st0 : BState := ⟨[[]], 0, 0, [], []⟩
    match alloca_locals tb body.locals st0 with
    | .error e => .error e
    | .ok (locals, st1) =>
      let ctx : Ctx := ⟨tb, llfuncs, llconsts, locals, sret⟩
      match build_block ctx body.body st1 with
      | .error e => .error e
      | .ok (_, st2) => .ok st2

/-- The epilogue of `build_func_body` (lines 327-330): append an
implicit `ret void` when the final current block has no terminator.
Note it consults only the block, never the declared return type. -/
def build_func_body_finish (st : BState) : Except String BState :=
  match curUnterminated st with
  | .error e => .error e
  | .ok (b, st) =>
      if b then
        match emitT .retVoid st with
        | .error e => .error e
        | .ok (_, st2) => .ok st2
      else .ok st

/-- `build_func_body` (`src/llvm.rs` lines 285-331). -/
def build_func_body (tb : TB) (llfuncs llconsts : List Val)
    (fd : FuncDecl) (body : FuncBody) : Except String BState :=
  match build_func_body_core tb llfuncs llconsts fd body with
  | .error e => .error e
  | .ok st => build_func_body_finish st

/-- The pure form of the `largest` fold of `set_enum_body`. -/
def pickL (acc : Option (Nat × LLType)) : List (Nat × LLType) → Option (Nat × LLType)
  | [] => acc
  | (size, rec) :: rest => pickL (largestStep acc size rec) rest

/-! ### Observing enum field stores (used to settle the tag round trip)

A small observer for the instruction traces produced above: which
value was last stored through a `structGEP` of the destination object
(identified by its parameter index) at a given field index.  Register
numbering follows the emission discipline: the j-th instruction of a
trace started at `startReg` defines register `startReg + j`. -/

def fieldGEPs (dstParam : Nat) (startReg : Nat) : List Instr → List (Nat × Nat)
  | [] => []
  | i :: rest =>
    let tail := fieldGEPs dstParam (startReg + 1) rest
    match i with
    | .structGEP _ (Val.param p) ix => if p = dstParam then (startReg, ix) :: tail else tail
    | _ => tail

/-- The value held by field `field` of the destination object after
running the trace: the last value stored through a field pointer for
that field (none when the field was never stored). -/
def storesToField (dstParam startReg : Nat) (instrs : List Instr) (field : Nat) : Option Val :=
  instrs.foldl (fun acc i =>
    match i with
    | .store v (Val.reg r) =>
        if (fieldGEPs dstParam startReg instrs).lookup r = some field then some v else acc
    | _ => acc) none

/-! ### Fixture for the enum tag round trip: an enum mixing a
payload-carrying and a zero-argument variant -/

def c1enum : EnumType := ⟨"E", [⟨[0]⟩, ⟨[]⟩]⟩

def c1tb : TB :=
  ⟨[Ty.i32, Ty.enm c1enum, Ty.i8],
   [LLType.int 32, LLType.named "E", LLType.int 8],
   [("E", [LLType.anon [LLType.int 32], LLType.int 8])]⟩

def c1ctx : Ctx := ⟨c1tb, [], [], [Val.param 0], none⟩

/-- The trace emitted by lowering the construction of variant 1 (the
zero-argument variant) of the fixture enum into the destination
`param 0`. -/
def c1ConstructInstrs : List Instr :=
  [.structGEP (.named "E") (.param 0) 0,
   .store (.constInt (.int 8) 1) (.reg 0)]

/-! ## Theorems -/

/-! ### C3: the synthesized ABI signature -/

theorem paramSlots_eq_mapM (tb : TB) :
    ∀ l : List TypeId,
      tb.paramSlots l = (l.mapM tb.abiSlot).map List.reduceOption := by
  intro l
  induction l with
  | nil => rfl
  | cons ty rest ih =>
    simp only [TB.paramSlots, List.mapM_cons, ih, TB.abiSlot]
    cases h1 : tb.irtypeOpt ty with
    | none => simp [Option.bind]
    | some irty =>
      simp only [Option.bind_eq_bind, Option.some_bind]
      cases hk : irty.kind with
      | unit =>
        cases h2 : (rest.mapM tb.abiSlot) with
        | none => simp
        | some slots => simp [List.reduceOption]
      | aggregate =>
        cases h2 : tb.lltypeOpt ty with
        | none =>
          cases h3 : (rest.mapM tb.abiSlot) with
          | none => simp
          | some slots => simp
        | some sty =>
          cases h3 : (rest.mapM tb.abiSlot) with
          | none => simp
          | some slots => simp [List.reduceOption]
      | scalar =>
        cases h2 : tb.lltypeOpt ty with
        | none =>
          cases h3 : (rest.mapM tb.abiSlot) with
          | none => simp
          | some slots => simp
        | some sty =>
          cases h3 : (rest.mapM tb.abiSlot) with
          | none => simp
          | some slots => simp [List.reduceOption]

/-- C3: for every FuncType the synthesized ABI signature drops every
Unit-typed parameter, lowers every Aggregate-typed parameter to a
pointer to its lowered type, passes every Scalar-typed parameter by
value, and for the return type maps Unit to a void return, Scalar to a
direct return, and Aggregate to a void return plus exactly one extra
trailing indirect-return-slot pointer appended after the parameter
list: `TypeBuilder::func_type` coincides with the spec-side
`abiSignature` on every type builder and every function type. -/
theorem C3_func_type_abi (tb : TB) (f : FuncType) :
    tb.func_type f = tb.abiSignature f := by
  unfold TB.func_type TB.abiSignature
  rw [paramSlots_eq_mapM]
  cases h1 : f.params.mapM tb.abiSlot with
  | none => simp [Option.bind]
  | some slots =>
    simp only [Option.map_some', Option.bind_eq_bind, Option.some_bind]
    cases h2 : tb.irtypeOpt f.ret with
    | none => simp [Option.bind]
    | some retTy =>
      simp only [Option.some_bind]
      cases hk : retTy.kind <;> simp

/-! ### C5: the cast matrix -/

/-- C5 counterexample: the claim includes conversion between the
32-bit integer type and either float width in both directions, but the
Cast arm has no case for F64 to I32 and fails fatally there. -/
theorem C5_counterexample :
    c5ClaimedCastOk Ty.f64 Ty.i32 = true ∧ castKind Ty.f64 Ty.i32 = none := by
  decide

/-- C5 (amended): cast lowering succeeds exactly on the matrix the
code implements: identity between equal types among the six numeric
types (not Bool, not aggregates), integer widening by sign-extension,
integer narrowing by truncation, I32 to either float width, F32 back
to I32 (F64 to I32 is unsupported), float resizing between F32 and
F64, and pointer-to-pointer reinterpretation; every other pair fails
fatally.  I32 to I8 truncates (300 becomes 44) and I8 to I32
sign-extends (the 8-bit pattern 0xFF reads back as -1). -/
theorem C5_cast_matrix :
    (∀ s d : Ty, (castKind s d).isSome = c5AmendedCastOk s d) ∧
    castKind Ty.i32 Ty.i8 = some CastKind.trunc ∧
    truncSem 8 300 = 44 ∧
    castKind Ty.i8 Ty.i32 = some CastKind.sext ∧
    sextSem 8 255 = -1 := by
  refine ⟨?_, by decide, by decide, by decide, by decide⟩
  intro s d
  cases s <;> cases d <;>
    simp [castKind, c5AmendedCastOk, Ty.isIntTy, Ty.isFloatTy, Ty.isPtrTy, Ty.intWidth]

/-! ### C9: integer literal parsing -/

/-- C9 counterexample: the literal text 300 does not parse as an
integer of declared type I8 (range -128..127), yet the codegen
lowering reports no error: it parses as i64 and silently truncates to
the 8-bit constant 44. -/
theorem C9_counterexample :
    parseAtWidth 8 "300" = none ∧ codegenBuildInteger 8 "300" = .ok 44 := by
  constructor
  · rfl
  · rfl

/-- C9 (amended): the codegen lowering reports the error and the run
terminates exactly when the literal text fails to parse as a 64-bit
integer; a literal that parses as i64 but lies outside its narrower
declared width is not an error and is silently truncated to that
width. -/
theorem C9_integer_literal (w : Nat) (s : String) :
    (parseI64 s = none →
      codegenBuildInteger w s = .error "unable to parse as integer") ∧
    (∀ i, parseI64 s = some i →
      codegenBuildInteger w s = .ok (toSigned w (i % (2 ^ 64 : Nat)).toNat)) := by
  constructor
  · intro h
    simp [codegenBuildInteger, h]
  · intro i h
    simp [codegenBuildInteger, h]

theorem C9_integer_literal_witness :
    parseI64 "12x" = none ∧
    codegenBuildInteger 8 "12x" = .error "unable to parse as integer" :=
  ⟨by rfl, (C9_integer_literal 8 "12x").1 (by rfl)⟩

/-! ### C2: enum layout -/

theorem pickL_eq_foldl :
    ∀ (l : List (Nat × LLType)) (acc : Option (Nat × LLType)),
      pickL acc l = l.foldl (fun acc p => largestStep acc p.1 p.2) acc := by
  intro l
  induction l with
  | nil => intro acc; rfl
  | cons p rest ih =>
    intro acc
    obtain ⟨s, t⟩ := p
    simp only [pickL, List.foldl_cons]
    exact ih (largestStep acc s t)

theorem foldlM_opt {α β γ : Type} (g : α → Option β) (step : γ → β → γ) :
    ∀ (l : List α) (acc : γ),
      (l.foldlM (fun acc a => (g a).map (step acc)) acc) =
        (l.mapM g).map (fun bs => bs.foldl step acc) := by
  intro l
  induction l with
  | nil => intro acc; rfl
  | cons a rest ih =>
    intro acc
    rw [List.foldlM_cons, List.mapM_cons]
    cases hg : g a with
    | none => simp [Option.bind]
    | some b =>
      simp only [Option.map_some']
      show List.foldlM (fun acc a => Option.map (step acc) (g a)) (step acc b) rest = _
      rw [ih (step acc b)]
      cases hm : rest.mapM g with
      | none => rfl
      | some bs => rfl

theorem foldStep_eq (tb : TB) (acc : Option (Nat × LLType)) (v : Variant) :
    (do
      let rec ← tb.variantRecord v
      let size ← tb.storeSize rec
      pure (largestStep acc size rec) : Option (Option (Nat × LLType))) =
    (tb.sizeRec v).map (fun p => largestStep acc p.1 p.2) := by
  unfold TB.sizeRec
  cases h1 : tb.variantRecord v with
  | none => rfl
  | some rec =>
    simp only [Option.bind_eq_bind, Option.some_bind]
    cases h2 : tb.storeSize rec with
    | none => rfl
    | some size => rfl

theorem set_enum_body_eq_pickL (tb : TB) (ety : EnumType) :
    tb.set_enum_body ety =
      (tb.variantSizeRecs ety).map (fun l =>
        match pickL none l with
        | some (_, t) => [t, .int 8]
        | none => [.int 8]) := by
  unfold TB.set_enum_body TB.variantSizeRecs
  have hstep : (fun (acc : Option (Nat × LLType)) (v : Variant) => do
      let rec ← tb.variantRecord v
      let size ← tb.storeSize rec
      pure (largestStep acc size rec)) =
      (fun acc v => (tb.sizeRec v).map (fun p => largestStep acc p.1 p.2)) := by
    funext acc v
    exact foldStep_eq tb acc v
  rw [hstep, foldlM_opt tb.sizeRec (fun acc p => largestStep acc p.1 p.2) ety.variants none]
  cases hm : ety.variants.mapM tb.sizeRec with
  | none => rfl
  | some l =>
    simp only [Option.map_some', Option.bind_eq_bind, Option.some_bind, pickL_eq_foldl]
    rfl

theorem mapM_some_nth {α β : Type} (g : α → Option β) :
    ∀ (l : List α) (l2 : List β), l.mapM g = some l2 →
      l2.length = l.length ∧
      ∀ (k : Nat) (b : β), l2[k]? = some b → ∃ a, l[k]? = some a ∧ g a = some b := by
  intro l
  induction l with
  | nil =>
    intro l2 h
    simp only [List.mapM_nil] at h
    cases h
    exact ⟨rfl, by intro k b hb; simp at hb⟩
  | cons a rest ih =>
    intro l2 h
    rw [List.mapM_cons] at h
    cases hg : g a with
    | none => rw [hg] at h; simp [Option.bind] at h
    | some b =>
      rw [hg] at h
      simp only [Option.bind_eq_bind, Option.some_bind] at h
      cases hm : rest.mapM g with
      | none => rw [hm] at h; simp [Option.bind] at h
      | some bs =>
        rw [hm] at h
        simp only [Option.some_bind, Option.pure_def, Option.some_inj] at h
        cases h
        obtain ⟨hlen, hnth⟩ := ih bs hm
        refine ⟨by simp [hlen], ?_⟩
        intro k c hc
        cases k with
        | zero =>
          simp only [List.getElem?_cons_zero] at hc
          cases hc
          exact ⟨a, by simp, hg⟩
        | succ k2 =>
          simp only [List.getElem?_cons_succ] at hc
          obtain ⟨a2, ha2, hga⟩ := hnth k2 c hc
          exact ⟨a2, by simpa using ha2, hga⟩

theorem pickL_some_spec :
    ∀ (l : List (Nat × LLType)) (m : Nat) (r : LLType),
      ((∀ p ∈ l, p.1 ≤ m) ∧ pickL (some (m, r)) l = some (m, r)) ∨
      (∃ k m2 r2, l[k]? = some (m2, r2) ∧
        pickL (some (m, r)) l = some (m2, r2) ∧ m < m2 ∧
        (∀ p ∈ l, p.1 ≤ m2) ∧ (∀ p ∈ l.take k, p.1 < m2)) := by
  intro l
  induction l with
  | nil => intro m r; left; simp [pickL]
  | cons st rest ih =>
    intro m r
    obtain ⟨s, t⟩ := st
    by_cases hms : s ≤ m
    · have hstep : largestStep (some (m, r)) s t = some (m, r) := by
        simp [largestStep, hms]
      rcases ih m r with ⟨hle, hres⟩ | ⟨k, m2, r2, hk, hres, hlt, hle, htk⟩
      · left
        constructor
        · intro p hp
          rcases List.mem_cons.mp hp with h | h
          · subst h; simpa using hms
          · exact hle p h
        · simp [pickL, hstep, hres]
      · right
        refine ⟨k + 1, m2, r2, by simpa using hk, by simp [pickL, hstep, hres], hlt, ?_, ?_⟩
        · intro p hp
          rcases List.mem_cons.mp hp with h | h
          · subst h; simpa using le_trans hms (le_of_lt hlt)
          · exact hle p h
        · intro p hp
          simp only [List.take_succ_cons] at hp
          rcases List.mem_cons.mp hp with h | h
          · subst h; simpa using lt_of_le_of_lt hms hlt
          · exact htk p h
    · push_neg at hms
      have hstep : largestStep (some (m, r)) s t = some (s, t) := by
        simp [largestStep]
        omega
      rcases ih s t with ⟨hle, hres⟩ | ⟨k, m2, r2, hk, hres, hlt, hle, htk⟩
      · right
        refine ⟨0, s, t, by simp, by simp [pickL, hstep, hres], hms, ?_, by simp⟩
        intro p hp
        rcases List.mem_cons.mp hp with h | h
        · subst h; simp
        · exact hle p h
      · right
        refine ⟨k + 1, m2, r2, by simpa using hk, by simp [pickL, hstep, hres],
          lt_trans hms hlt, ?_, ?_⟩
        · intro p hp
          rcases List.mem_cons.mp hp with h | h
          · subst h; simpa using le_of_lt hlt
          · exact hle p h
        · intro p hp
          simp only [List.take_succ_cons] at hp
          rcases List.mem_cons.mp hp with h | h
          · subst h; simpa using hlt
          · exact htk p h

theorem pickL_none_spec (l : List (Nat × LLType)) (hl : l ≠ []) :
    ∃ k m r, l[k]? = some (m, r) ∧ pickL none l = some (m, r) ∧
      (∀ p ∈ l, p.1 ≤ m) ∧ (∀ p ∈ l.take k, p.1 < m) := by
  cases l with
  | nil => exact absurd rfl hl
  | cons st rest =>
    obtain ⟨s, t⟩ := st
    have hfirst : pickL none ((s, t) :: rest) = pickL (some (s, t)) rest := by
      simp [pickL, largestStep]
    rcases pickL_some_spec rest s t with ⟨hle, hres⟩ | ⟨k, m2, r2, hk, hres, hlt, hle, htk⟩
    · refine ⟨0, s, t, by simp, by rw [hfirst, hres], ?_, by simp⟩
      intro p hp
      rcases List.mem_cons.mp hp with h | h
      · subst h; simp
      · exact hle p h
    · refine ⟨k + 1, m2, r2, by simpa using hk, by rw [hfirst, hres], ?_, ?_⟩
      · intro p hp
        rcases List.mem_cons.mp hp with h | h
        · subst h; simpa using le_of_lt hlt
        · exact hle p h
      · intro p hp
        simp only [List.take_succ_cons] at hp
        rcases List.mem_cons.mp hp with h | h
        · subst h; simpa using hlt
        · exact htk p h

/-- Pointwise content of the (size, record) table: entry `k` is the
anonymous record of variant `k` with its store size. -/
theorem variantSizeRecs_nth (tb : TB) (ety : EnumType) (l : List (Nat × LLType))
    (h : tb.variantSizeRecs ety = some l) :
    l.length = ety.variants.length ∧
    ∀ (k : Nat) (p : Nat × LLType), l[k]? = some p →
      ∃ v, ety.variants[k]? = some v ∧
        tb.variantRecord v = some p.2 ∧ tb.storeSize p.2 = some p.1 := by
  unfold TB.variantSizeRecs at h
  obtain ⟨hlen, hnth⟩ := mapM_some_nth tb.sizeRec ety.variants l h
  refine ⟨hlen, ?_⟩
  intro k p hp
  obtain ⟨v, hv, hsr⟩ := hnth k p hp
  refine ⟨v, hv, ?_⟩
  unfold TB.sizeRec at hsr
  cases h1 : tb.variantRecord v with
  | none => rw [h1] at hsr; simp [Option.bind] at hsr
  | some rec =>
    rw [h1] at hsr
    simp only [Option.bind_eq_bind, Option.some_bind] at hsr
    cases h2 : tb.storeSize rec with
    | none => rw [h2] at hsr; simp [Option.bind] at hsr
    | some size =>
      rw [h2] at hsr
      simp only [Option.some_bind, Option.pure_def, Option.some_inj] at hsr
      subst hsr
      exact ⟨rfl, h2⟩

/-- C2 counterexample: for an enum with one variant carrying no
arguments, the claim says the payload field is omitted and the body is
the tag byte alone; the code keeps a zero-sized empty payload record
and the body has two fields. -/
theorem C2_counterexample :
    (EnumType.mk "E" [⟨[]⟩]).variants.all (fun v => v.args.isEmpty) = true ∧
    TB.set_enum_body ⟨[], [], []⟩ ⟨"E", [⟨[]⟩]⟩ =
      some [LLType.anon [], LLType.int 8] := by
  constructor
  · rfl
  · rfl

/-- C2 (amended): the lowered enum body is the anonymous argument
record of the first variant (in declaration order) reaching the
maximum target storage size, followed by the 1-byte tag; the payload
field is omitted only when the enum has no variants at all (an enum
whose variants all carry zero arguments still keeps a zero-sized
payload record). -/
theorem C2_enum_layout (tb : TB) (ety : EnumType) (fields : List LLType)
    (h : tb.set_enum_body ety = some fields) :
    (ety.variants = [] → fields = [.int 8]) ∧
    (ety.variants ≠ [] →
      ∃ l k m r, tb.variantSizeRecs ety = some l ∧
        l.length = ety.variants.length ∧
        l[k]? = some (m, r) ∧
        fields = [r, .int 8] ∧
        (∃ v, ety.variants[k]? = some v ∧ tb.variantRecord v = some r ∧
          tb.storeSize r = some m) ∧
        (∀ p ∈ l, p.1 ≤ m) ∧ (∀ p ∈ l.take k, p.1 < m)) := by
  rw [set_enum_body_eq_pickL] at h
  cases hm : tb.variantSizeRecs ety with
  | none => rw [hm] at h; exact Option.noConfusion h
  | some l =>
    rw [hm] at h
    simp only [Option.map_some', Option.some_inj] at h
    obtain ⟨hlen, hnth⟩ := variantSizeRecs_nth tb ety l hm
    constructor
    · intro hv
      have : l = [] := by
        apply List.eq_nil_of_length_eq_zero
        rw [hlen, hv]
        rfl
      rw [this] at h
      simp [pickL] at h
      exact h.symm
    · intro hv
      have hlne : l ≠ [] := by
        intro hle
        apply hv
        apply List.eq_nil_of_length_eq_zero
        rw [← hlen, hle]
        rfl
      obtain ⟨k, m, r, hk, hres, hle, htk⟩ := pickL_none_spec l hlne
      rw [hres] at h
      refine ⟨l, k, m, r, rfl, hlen, hk, h.symm, ?_, hle, htk⟩
      obtain ⟨v, hv2, hrec, hsz⟩ := hnth k (m, r) hk
      exact ⟨v, hv2, hrec, hsz⟩

theorem C2_enum_layout_witness :
    TB.set_enum_body ⟨[Ty.i32], [LLType.int 32], []⟩ ⟨"E", [⟨[]⟩, ⟨[0]⟩, ⟨[0]⟩]⟩ =
      some [LLType.anon [LLType.int 32], LLType.int 8] ∧
    (EnumType.mk "E" [⟨[]⟩, ⟨[0]⟩, ⟨[0]⟩]).variants ≠ [] ∧
    (∃ l k m r,
        TB.variantSizeRecs ⟨[Ty.i32], [LLType.int 32], []⟩ ⟨"E", [⟨[]⟩, ⟨[0]⟩, ⟨[0]⟩]⟩ = some l ∧
        l.length = 3 ∧
        l[k]? = some (m, r) ∧
        ([LLType.anon [LLType.int 32], LLType.int 8] : List LLType) = [r, .int 8] ∧
        (∃ v, (EnumType.mk "E" [⟨[]⟩, ⟨[0]⟩, ⟨[0]⟩]).variants[k]? = some v ∧
          TB.variantRecord ⟨[Ty.i32], [LLType.int 32], []⟩ v = some r ∧
          TB.storeSize ⟨[Ty.i32], [LLType.int 32], []⟩ r = some m) ∧
        (∀ p ∈ l, p.1 ≤ m) ∧ (∀ p ∈ l.take k, p.1 < m)) := by
  have hrun : TB.set_enum_body ⟨[Ty.i32], [LLType.int 32], []⟩ ⟨"E", [⟨[]⟩, ⟨[0]⟩, ⟨[0]⟩]⟩ =
      some [LLType.anon [LLType.int 32], LLType.int 8] := by rfl
  refine ⟨hrun, by simp, ?_⟩
  have := (C2_enum_layout ⟨[Ty.i32], [LLType.int 32], []⟩ ⟨"E", [⟨[]⟩, ⟨[0]⟩, ⟨[0]⟩]⟩
      [LLType.anon [LLType.int 32], LLType.int 8] hrun).2 (by simp)
  obtain ⟨l, k, m, r, h1, h2, h3, h4, h5, h6, h7⟩ := this
  exact ⟨l, k, m, r, h1, by rw [h2]; rfl, h3, h4, h5, h6, h7⟩

/-! ### C1: the enum tag round trip -/

/-- C1: the layout fixes the tag at field index 1 for the fixture enum
(mixing a payload variant and a zero-argument variant), and
`EnumTag` reads field index 1; but `EnumCall` for the zero-argument
variant 1 recomputes the tag index from that variant's own argument
count and stores the tag byte through field index 0, so constructing
variant 1 and then reading the tag does not yield 1: the tag field was
never written.  This evaluates the code at the failing input flagged
by the FIXME comment at `src/llvm.rs` line 653. -/
theorem C1_enum_tag_bug :
    TB.set_enum_body c1tb c1enum = some [LLType.anon [LLType.int 32], LLType.int 8] ∧
    (build_aggregate c1ctx (.mk 1 (.enumCall 1 [])) (Val.param 0)).val ⟨[], 0⟩ =
      .ok ((), ⟨c1ConstructInstrs, 2⟩) ∧
    (build_scalar c1ctx (.mk 2 (.enumTag (.mk 1 (.local 0))))).val ⟨c1ConstructInstrs, 2⟩ =
      .ok (Val.reg 3,
        ⟨c1ConstructInstrs ++ [.structGEP (.named "E") (.param 0) 1, .load (.int 8) (.reg 2)], 4⟩) ∧
    storesToField 0 0 c1ConstructInstrs 0 = some (Val.constInt (.int 8) 1) ∧
    storesToField 0 0 c1ConstructInstrs 1 = none ∧
    storesToField 0 0 c1ConstructInstrs 1 ≠ some (Val.constInt (.int 8) 1) := by
  refine ⟨by rfl, ?_, ?_, by rfl, by rfl, by
    intro h
    have h5 : storesToField 0 0 c1ConstructInstrs 1 = none := rfl
    rw [h5] at h
    exact Option.noConfusion h⟩
  · simp [build_aggregate, c1ctx, c1tb, c1ConstructInstrs, lltypeE, irtypeE, EM.lift,
          EM.pure, EM.bind, EM.fail, emitNT, Bind.bind, Pure.pure, TB.lltypeOpt, TB.irtypeOpt]
  · simp [build_scalar, build_place, c1ctx, c1tb, c1ConstructInstrs, lltypeE, irtypeE,
          localE, EM.lift, EM.pure, EM.bind, EM.fail, emitNT, Bind.bind, Pure.pure,
          TB.lltypeOpt, TB.irtypeOpt, Expr.ty, Expr.kind]

end Cu
